import Mathlib

/-!
# Verification of the carrier_pigeon reliability core

A shallow embedding of the parts of the `carrier_pigeon` crate that the
frozen claims are about, together with theorems settling each claim.

Conventions used throughout:

* Machine integers are modelled as `Nat`.  Where overflow or underflow of a
  fixed-width integer matters, the arithmetic is made explicit: Rust's
  debug-mode checked arithmetic (which panics on wrap) is modelled by
  `Option`-valued functions where `none` means the program aborted
  (panicked), and `as`-casts are modelled by explicit `% 2^w`.
* `Vec`/`VecDeque` become `List` (front of the deque = head of the list).
* `HashMap` becomes an association list with insert-overwrites semantics.
* Function pointers (serializers and deserializers in the registry) are
  modelled as opaque `Nat` tokens where only their identity/count matters,
  and as actual Lean functions where their behaviour matters.
-/

/-! ## Wire header codec (`src/net.rs`) -/

/-- `HEADER_SIZE` from `src/net.rs`. -/
def HEADER_SIZE : Nat := 12

/-- `MsgHeader` from `src/net.rs`.  `m_type : MType = usize`; the remaining
fields are `u16`/`u32` (see `MsgHeader.wf`). -/
structure MsgHeader where
  m_type : Nat
  order_num : Nat
  sender_ack_num : Nat
  receiver_acking_offset : Nat
  ack_bits : Nat
  deriving DecidableEq, Repr

/-- Rust field-type invariant: the `u16` fields are below `2^16` and the
`u32` field below `2^32` (automatic in Rust, explicit here). -/
def MsgHeader.wf (h : MsgHeader) : Prop :=
  h.order_num < 65536 ∧ h.sender_ack_num < 65536 ∧
  h.receiver_acking_offset < 65536 ∧ h.ack_bits < 4294967296

/-- `u16::to_be_bytes` for a value already known to be below `2^16`. -/
def u16BeBytes (v : Nat) : List Nat := [v / 256, v % 256]

/-- `u32::to_be_bytes` for a value already known to be below `2^32`. -/
def u32BeBytes (v : Nat) : List Nat :=
  [v / 16777216, v / 65536 % 256, v / 256 % 256, v % 256]

/-- `MsgHeader::to_be_bytes` from `src/net.rs` lines 69-103.  Note the
source writes `(self.m_type as u16)`: a truncating cast, modelled by
`% 65536`. -/
def MsgHeader.to_be_bytes (h : MsgHeader) : List Nat :=
  u16BeBytes (h.m_type % 65536) ++ u16BeBytes h.order_num ++
  u16BeBytes h.sender_ack_num ++ u16BeBytes h.receiver_acking_offset ++
  u32BeBytes h.ack_bits

/-- `MsgHeader::from_be_bytes` from `src/net.rs` lines 108-129.  The source
`assert_eq!(bytes.len(), HEADER_SIZE, ...)` panics on any other length;
the panic is modelled by `none`. -/
def MsgHeader.from_be_bytes (bytes : List Nat) : Option MsgHeader :=
  match bytes with
  | [b0, b1, b2, b3, b4, b5, b6, b7, b8, b9, b10, b11] =>
    some { m_type := b0 * 256 + b1
           order_num := b2 * 256 + b3
           sender_ack_num := b4 * 256 + b5
           receiver_acking_offset := b6 * 256 + b7
           ack_bits := ((b8 * 256 + b9) * 256 + b10) * 256 + b11 }
  | _ => none

/-- A header whose `m_type` does not fit in 16 bits (legal in Rust, where
`MType = usize`). -/
def oversizedHeader : MsgHeader := ⟨65536, 0, 0, 0, 0⟩

/-- C2 (counterexample): the round-trip claim quantifies over *every*
`MsgHeader`, but `to_be_bytes` truncates `m_type` (a `usize`) to `u16`,
so the header with `m_type = 65536` does not survive the round trip. -/
theorem msg_header_roundtrip_cex :
    MsgHeader.from_be_bytes (MsgHeader.to_be_bytes oversizedHeader)
      ≠ some oversizedHeader := by
  decide

/-- C2 (amended): for every `MsgHeader` whose `m_type` fits in 16 bits
(true of all registered message types), decoding the encoding gives the
header back, and the encoding is exactly 12 big-endian bytes in field
order `m_type, order_num, sender_ack_num, receiver_acking_offset,
ack_bits`. -/
theorem msg_header_roundtrip (h : MsgHeader) (hm : h.m_type < 65536)
    (hwf : h.wf) :
    MsgHeader.from_be_bytes (MsgHeader.to_be_bytes h) = some h ∧
    (MsgHeader.to_be_bytes h).length = HEADER_SIZE := by
  obtain ⟨ho, hs, hr, ha⟩ := hwf
  cases h with
  | mk mt od sa ro ab =>
    refine ⟨?_, by simp [MsgHeader.to_be_bytes, u16BeBytes, u32BeBytes,
      HEADER_SIZE]⟩
    simp only [MsgHeader.to_be_bytes, u16BeBytes, u32BeBytes,
      MsgHeader.from_be_bytes, List.cons_append, List.nil_append,
      Option.some.injEq, MsgHeader.mk.injEq]
    simp only [MsgHeader.wf] at *
    refine ⟨?_, ?_, ?_, ?_, ?_⟩ <;> omega

/-- Closed witness for `msg_header_roundtrip` at a concrete header. -/
theorem msg_header_roundtrip_witness :
    MsgHeader.from_be_bytes
        (MsgHeader.to_be_bytes ⟨7, 2, 300, 40000, 4000000000⟩)
      = some ⟨7, 2, 300, 40000, 4000000000⟩ ∧
    (MsgHeader.to_be_bytes ⟨7, 2, 300, 40000, 4000000000⟩).length
      = HEADER_SIZE :=
  msg_header_roundtrip ⟨7, 2, 300, 40000, 4000000000⟩ (by decide)
    ⟨by decide, by decide, by decide, by decide⟩

/-! ## `CIdSpec` (`src/net.rs` lines 363-403) -/

/-- `CIdSpec` from `src/net.rs`.  `CId = u32`. -/
inductive CIdSpec where
  | all
  | none
  | except (o : Nat)
  | only (o : Nat)
  deriving DecidableEq, Repr

/-- Rust field-type invariant: the carried `CId` is a `u32`. -/
def CIdSpec.wf : CIdSpec → Prop
  | .except o => o < 4294967296
  | .only o => o < 4294967296
  | _ => True

/-- `CIdSpec::matches` from `src/net.rs`. -/
def CIdSpec.cidMatches : CIdSpec → Nat → Bool
  | .all, _ => true
  | .none, _ => false
  | .except o, cid => cid ≠ o
  | .only o, cid => cid = o

/-- `CIdSpec::overlaps` from `src/net.rs`.  The match arms are translated
in source order (Rust tries them top to bottom). -/
def CIdSpec.overlaps : CIdSpec → CIdSpec → Bool
  | .none, _ => false
  | _, .none => false
  | .all, _ => true
  | _, .all => true
  | .except _, .except _ => true
  | .only o1, .only o2 => o1 = o2
  | .only o, .except e => o ≠ e
  | .except e, .only o => o ≠ e

/-- C10: `overlaps` returns `true` exactly when some `u32` connection id is
matched by both specs, and `overlaps` is symmetric. -/
theorem cid_spec_overlaps_characterization (a b : CIdSpec)
    (ha : a.wf) (hb : b.wf) :
    (CIdSpec.overlaps a b = true ↔
      ∃ c, c < 4294967296 ∧
        CIdSpec.cidMatches a c = true ∧ CIdSpec.cidMatches b c = true) ∧
    CIdSpec.overlaps a b = CIdSpec.overlaps b a := by
  cases a <;> cases b <;>
    simp_all [CIdSpec.overlaps, CIdSpec.cidMatches, CIdSpec.wf]
  case all.all => exact ⟨0, by omega⟩
  case all.except o => exact ⟨if o = 0 then 1 else 0, by split <;> omega⟩
  case except.all o => exact ⟨if o = 0 then 1 else 0, by split <;> omega⟩
  case except.except o1 o2 =>
    refine ⟨if o1 = 0 ∨ o2 = 0 then (if o1 = 1 ∨ o2 = 1 then 2 else 1)
      else 0, ?_⟩
    split <;> rename_i hz
    · split <;> rename_i hw <;> omega
    · omega
  case only.except o1 o2 =>
    constructor
    · intro hne
      exact ⟨o1, ha, rfl, hne⟩
    · rintro ⟨c, -, rfl, hc⟩
      exact hc
  case only.only o1 o2 => omega

/-- Closed witness for `cid_spec_overlaps_characterization`: two `Except`
specs always overlap, and a common `CId` exists. -/
theorem cid_spec_overlaps_characterization_witness :
    (CIdSpec.overlaps (.except 3) (.except 5) = true ↔
      ∃ c, c < 4294967296 ∧
        CIdSpec.cidMatches (.except 3) c = true ∧
        CIdSpec.cidMatches (.except 5) c = true) ∧
    CIdSpec.overlaps (.except 3) (.except 5)
      = CIdSpec.overlaps (.except 5) (.except 3) :=
  cid_spec_overlaps_characterization (.except 3) (.except 5)
    (by simp [CIdSpec.wf]) (by simp [CIdSpec.wf])

/-! ## Message type registry (`src/message_table.rs`)

`TypeId` is modelled as `Nat`; serializer/deserializer function pointers
are modelled as `Nat` tokens (the registry never calls them, it only
stores and counts them).  `MId = usize` is `Nat`. -/

/-- `Transport` (referenced by `src/message_table.rs`; its declaring module
is not under `src/`, but its structure is irrelevant to the claims — it is
an enum of transport tags with `TCP` among them). -/
inductive Transport where
  | tcp
  | udp
  deriving DecidableEq, Repr

/-- `MsgRegError` from `src/message_table.rs`. -/
inductive MsgRegError where
  | typeAlreadyRegistered
  | nonUniqueIdentifier
  deriving DecidableEq, Repr

/-- One entry of `MsgTable::table`: `(TypeId, Transport, SerFn, DeserFn)`. -/
structure Registration where
  tid : Nat
  transport : Transport
  ser : Nat
  deser : Nat
  deriving DecidableEq, Repr

/-- `MsgTable::table`. -/
abbrev MsgTable := List Registration

/-- `MsgTableParts` from `src/message_table.rs` (its `tid_map : HashMap`
is an insert-overwrites association list). -/
structure MsgTableParts where
  tid_map : List (Nat × Nat)
  transports : List Transport
  ser : List Nat
  deser : List Nat
  deriving DecidableEq, Repr

/-- `HashMap::insert` on an association list: any previous binding of the
key is replaced. -/
def hmInsert (m : List (Nat × Nat)) (k v : Nat) : List (Nat × Nat) :=
  m.filter (fun p => p.1 ≠ k) ++ [(k, v)]

/-- `HashMap` lookup on an association list built with `hmInsert`. -/
def hmFind? (m : List (Nat × Nat)) (k : Nat) : Option Nat :=
  (m.find? (fun p => p.1 = k)).map Prod.snd

/-- The `tid_map.insert(tid, idx)` loop of `build`: insert `(tid, index)`
for every entry of the enumerated registration list. -/
def buildTidMap (all : List Registration) : List (Nat × Nat) :=
  all.enum.foldl (fun m iv => hmInsert m iv.2.tid iv.1) []

/-- `MsgTable::register` from `src/message_table.rs` lines 79-85 (the
duplicate check is `get_custom_registration`, lines 131-148). -/
def msgTableRegister (t : MsgTable) (r : Registration) :
    Except MsgRegError MsgTable :=
  if t.any (fun e => e.tid = r.tid) then .error .typeAlreadyRegistered
  else .ok (t ++ [r])

/-- `MsgTable::build::<C, R, D>` from `src/message_table.rs` lines 160-198.
The three control types are registered through `get_registration` (which
fails with `TypeAlreadyRegistered` if the type is already in the user
table) and prepended, in order `C`, `R`, `D`, before the user entries;
indices are assigned by enumeration.  Control serializer/deserializer
tokens are `0` (their values are never inspected). -/
def msgTableBuild (tidC tidR tidD : Nat) (t : MsgTable) :
    Except MsgRegError MsgTableParts :=
  if t.any (fun e => e.tid = tidC) then .error .typeAlreadyRegistered
  else if t.any (fun e => e.tid = tidR) then .error .typeAlreadyRegistered
  else if t.any (fun e => e.tid = tidD) then .error .typeAlreadyRegistered
  else
    let all := ⟨tidC, .tcp, 0, 0⟩ :: ⟨tidR, .tcp, 0, 0⟩ ::
      ⟨tidD, .tcp, 0, 0⟩ :: t
    .ok { tid_map := buildTidMap all
          transports := all.map (fun e => e.transport)
          ser := all.map (fun e => e.ser)
          deser := all.map (fun e => e.deser) }

/-- `MsgTableParts::mid_count` from `src/message_table.rs`. -/
def MsgTableParts.mid_count (p : MsgTableParts) : Nat := p.transports.length

/-- `MsgTableParts::valid_mid` from `src/message_table.rs`: note the
source comparison is `mid <= self.mid_count()`. -/
def MsgTableParts.valid_mid (p : MsgTableParts) (mid : Nat) : Bool :=
  mid ≤ p.mid_count

/-! ### Association-list lemmas for `hmInsert`/`hmFind?` -/

theorem hmFind?_insert_self (m : List (Nat × Nat)) (k v : Nat) :
    hmFind? (hmInsert m k v) k = some v := by
  unfold hmFind? hmInsert
  rw [List.find?_append]
  have hnone : (m.filter (fun p => p.1 ≠ k)).find? (fun p => p.1 = k)
      = none := by
    rw [List.find?_eq_none]
    intro p hp
    have := (List.mem_filter.mp hp).2
    simpa using this
  simp [hnone]

theorem find?_filter_ne (m : List (Nat × Nat)) (k k' : Nat) (hne : k ≠ k') :
    (m.filter (fun p => p.1 ≠ k')).find? (fun p => p.1 = k)
      = m.find? (fun p => p.1 = k) := by
  induction m with
  | nil => rfl
  | cons a rest ih =>
    by_cases h' : a.1 = k'
    · have h1 : (decide (a.1 ≠ k')) = false := by simp [h']
      have h2 : (decide (a.1 = k)) = false := by simp; omega
      simp only [List.filter_cons, List.find?_cons, h1, h2,
        Bool.false_eq_true, if_false]
      exact ih
    · have h1 : (decide (a.1 ≠ k')) = true := by simp [h']
      simp only [List.filter_cons, List.find?_cons, h1, if_true]
      by_cases hk : a.1 = k
      · have h2 : (decide (a.1 = k)) = true := by simp [hk]
        simp only [List.find?_cons, h2]
      · have h2 : (decide (a.1 = k)) = false := by simp [hk]
        simp only [List.find?_cons, h2]
        exact ih

theorem hmFind?_insert_other (m : List (Nat × Nat)) (k k' v : Nat)
    (hne : k ≠ k') : hmFind? (hmInsert m k' v) k = hmFind? m k := by
  unfold hmFind? hmInsert
  rw [List.find?_append, find?_filter_ne m k k' hne]
  cases hm : m.find? (fun p => p.1 = k) with
  | none => simp [hm]; omega
  | some p => simp [hm]

/-- Folding `hmInsert` over key-distinct pairs: lookups of keys not among
the pairs are untouched. -/
theorem hmFind?_foldl_not_mem (pairs : List (Nat × Nat))
    (m : List (Nat × Nat)) (k : Nat)
    (hk : ∀ p ∈ pairs, p.1 ≠ k) :
    hmFind? (pairs.foldl (fun m p => hmInsert m p.1 p.2) m) k
      = hmFind? m k := by
  induction pairs generalizing m with
  | nil => rfl
  | cons a rest ih =>
    have ha : a.1 ≠ k := hk a (by simp)
    rw [List.foldl_cons, ih _ (fun p hp => hk p (by simp [hp])),
      hmFind?_insert_other _ _ _ _ (fun h => ha h.symm)]

/-- Folding `hmInsert` over key-distinct pairs: each pair is found. -/
theorem hmFind?_foldl_mem (pairs : List (Nat × Nat))
    (m : List (Nat × Nat)) (k v : Nat)
    (hmem : (k, v) ∈ pairs) (hnd : (pairs.map Prod.fst).Nodup) :
    hmFind? (pairs.foldl (fun m p => hmInsert m p.1 p.2) m) k
      = some v := by
  induction pairs generalizing m with
  | nil => simp at hmem
  | cons a rest ih =>
    rw [List.map_cons, List.nodup_cons] at hnd
    rcases List.mem_cons.mp hmem with heq | hrest
    · subst heq
      rw [List.foldl_cons, hmFind?_foldl_not_mem _ _ _ ?hks]
      case hks =>
        intro p hp h
        exact hnd.1 (by rw [← h]; exact List.mem_map.mpr ⟨p, hp, rfl⟩)
      exact hmFind?_insert_self m k v
    · exact List.foldl_cons _ _ ▸ ih _ hrest hnd.2

/-- Index lookup into the map built by the `build` enumeration loop: with
duplicate-free `TypeId`s, the entry at index `i` is found at `i`. -/
theorem buildTidMap_find (all : List Registration)
    (hnd : (all.map (fun e => e.tid)).Nodup) (i : Nat) (r : Registration)
    (hget : all[i]? = some r) :
    hmFind? (buildTidMap all) r.tid = some i := by
  have hshape : buildTidMap all
      = (all.enum.map (fun iv => (iv.2.tid, iv.1))).foldl
          (fun m p => hmInsert m p.1 p.2) [] := by
    rw [List.foldl_map]
    rfl
  rw [hshape]
  apply hmFind?_foldl_mem
  · exact List.mem_map.mpr ⟨(i, r), List.mk_mem_enum_iff_getElem?.mpr hget,
      rfl⟩
  · have hmap : (all.enum.map (fun iv => (iv.2.tid, iv.1))).map Prod.fst
        = all.map (fun e => e.tid) := by
      rw [List.map_map]
      have : (Prod.fst ∘ fun iv : Nat × Registration => (iv.2.tid, iv.1))
          = (fun e : Registration => e.tid) ∘ Prod.snd := rfl
      rw [this, ← List.map_map, List.enum_map_snd]
    rw [hmap]
    exact hnd

/-- C3 (counterexample): the claim gives the `Connection` control type the
fixed slot 1 and says user types get ids at least 7; in the code, `build`
registered with `Connection = 100`, `Response = 101`, `Disconnect = 102`
and one user type `103` assigns `Connection` the id 0 (`CONNECTION_TYPE_MID
= 0`) and the user type the id 3. -/
theorem msg_table_build_slots_cex :
    ((msgTableBuild 100 101 102 [⟨103, .udp, 7, 8⟩]).map
        (fun p => (hmFind? p.tid_map 100, hmFind? p.tid_map 103)))
      = .ok (some 0, some 3) ∧
    (some 0 : Option Nat) ≠ some 1 ∧ (3 : Nat) < 7 := by
  exact ⟨rfl, by decide, by decide⟩

/-- C3 (amended): for every registry built with `build`, the three
well-known control types occupy the fixed slots `Connection(C) = 0`,
`Response(R) = 1`, `Disconnect(D) = 2` (`CONNECTION_TYPE_MID`,
`RESPONSE_TYPE_MID`, `DISCONNECT_TYPE_MID`), and the user type registered
at position `i` is assigned `MId` `3 + i` — in particular every
user-registered type gets an id of at least 3.  (This `build` takes three
generic parameters, not four; there are no `Ping`/`Ack` slots.) -/
theorem msg_table_build_slots (tidC tidR tidD : Nat) (t : MsgTable)
    (p : MsgTableParts)
    (hcr : tidC ≠ tidR) (hcd : tidC ≠ tidD) (hrd : tidR ≠ tidD)
    (huser : ∀ r ∈ t, r.tid ≠ tidC ∧ r.tid ≠ tidR ∧ r.tid ≠ tidD)
    (hnd : (t.map (fun e => e.tid)).Nodup)
    (hbuild : msgTableBuild tidC tidR tidD t = .ok p) :
    hmFind? p.tid_map tidC = some 0 ∧
    hmFind? p.tid_map tidR = some 1 ∧
    hmFind? p.tid_map tidD = some 2 ∧
    ∀ i r, t[i]? = some r → hmFind? p.tid_map r.tid = some (3 + i) := by
  unfold msgTableBuild at hbuild
  split at hbuild
  · exact absurd hbuild (by simp)
  split at hbuild
  · exact absurd hbuild (by simp)
  split at hbuild
  · exact absurd hbuild (by simp)
  rename_i hc hr hd
  simp only [Except.ok.injEq] at hbuild
  subst hbuild
  have hnotinC : ∀ r ∈ t, r.tid ≠ tidC := fun r hr' => (huser r hr').1
  have hall : ((⟨tidC, Transport.tcp, 0, 0⟩ :: ⟨tidR, Transport.tcp, 0, 0⟩ ::
      ⟨tidD, Transport.tcp, 0, 0⟩ :: t : List Registration).map
        (fun e => e.tid)).Nodup := by
    simp only [List.map_cons, List.nodup_cons, List.mem_cons,
      List.mem_map]
    refine ⟨?_, ?_, ?_, hnd⟩
    · rintro (h | h | ⟨r, hrmem, hrtid⟩)
      · exact hcr h
      · exact hcd h
      · exact (huser r hrmem).1 hrtid
    · rintro (h | ⟨r, hrmem, hrtid⟩)
      · exact hrd h
      · exact (huser r hrmem).2.1 hrtid
    · rintro ⟨r, hrmem, hrtid⟩
      exact (huser r hrmem).2.2 hrtid
  refine ⟨?_, ?_, ?_, ?_⟩
  · exact buildTidMap_find _ hall 0 ⟨tidC, .tcp, 0, 0⟩ (by simp)
  · exact buildTidMap_find _ hall 1 ⟨tidR, .tcp, 0, 0⟩ (by simp)
  · exact buildTidMap_find _ hall 2 ⟨tidD, .tcp, 0, 0⟩ (by simp)
  · intro i r hget
    refine buildTidMap_find _ hall (3 + i) r ?_
    rw [show (⟨tidC, Transport.tcp, 0, 0⟩ :: ⟨tidR, Transport.tcp, 0, 0⟩ ::
        ⟨tidD, Transport.tcp, 0, 0⟩ :: t : List Registration)
      = [⟨tidC, .tcp, 0, 0⟩, ⟨tidR, .tcp, 0, 0⟩, ⟨tidD, .tcp, 0, 0⟩] ++ t
      from rfl, List.getElem?_append_right (by simp)]
    simpa [Nat.add_sub_cancel_left] using hget

/-- Closed witness for `msg_table_build_slots` at a concrete table. -/
theorem msg_table_build_slots_witness :
    hmFind? (MsgTableParts.tid_map
        { tid_map := buildTidMap [⟨100, .tcp, 0, 0⟩, ⟨101, .tcp, 0, 0⟩,
            ⟨102, .tcp, 0, 0⟩, ⟨103, .udp, 7, 8⟩]
          transports := [.tcp, .tcp, .tcp, .udp]
          ser := [0, 0, 0, 7]
          deser := [0, 0, 0, 8] }) 100 = some 0 ∧
    hmFind? (buildTidMap [⟨100, .tcp, 0, 0⟩, ⟨101, .tcp, 0, 0⟩,
        ⟨102, .tcp, 0, 0⟩, ⟨103, .udp, 7, 8⟩]) 101 = some 1 ∧
    hmFind? (buildTidMap [⟨100, .tcp, 0, 0⟩, ⟨101, .tcp, 0, 0⟩,
        ⟨102, .tcp, 0, 0⟩, ⟨103, .udp, 7, 8⟩]) 102 = some 2 ∧
    ∀ i r, ([⟨103, .udp, 7, 8⟩] : MsgTable)[i]? = some r →
      hmFind? (buildTidMap [⟨100, .tcp, 0, 0⟩, ⟨101, .tcp, 0, 0⟩,
        ⟨102, .tcp, 0, 0⟩, ⟨103, .udp, 7, 8⟩]) r.tid = some (3 + i) :=
  msg_table_build_slots 100 101 102 [⟨103, .udp, 7, 8⟩] _
    (by decide) (by decide) (by decide)
    (by intro r hr; simp at hr; subst hr; exact ⟨by decide, by decide,
      by decide⟩)
    (by simp) rfl

/-- C9: `valid_mid` uses `mid <= mid_count()`, so it is true exactly for
`mid ≤ mid_count`; in particular `valid_mid (mid_count())` is true even
though every table of a built registry (`transports`, `ser`, `deser`) has
exactly `mid_count` entries, so index `mid_count` is out of range for all
of them. -/
theorem valid_mid_boundary :
    (∀ (p : MsgTableParts) (mid : Nat),
      p.valid_mid mid = true ↔ mid ≤ p.mid_count) ∧
    (∀ (tidC tidR tidD : Nat) (t : MsgTable) (p : MsgTableParts),
      msgTableBuild tidC tidR tidD t = .ok p →
        p.valid_mid p.mid_count = true ∧
        p.transports.length = p.mid_count ∧
        p.ser.length = p.mid_count ∧
        p.deser.length = p.mid_count ∧
        p.transports[p.mid_count]? = none ∧
        p.ser[p.mid_count]? = none ∧
        p.deser[p.mid_count]? = none) := by
  constructor
  · intro p mid
    simp [MsgTableParts.valid_mid]
  · intro tidC tidR tidD t p hbuild
    unfold msgTableBuild at hbuild
    split at hbuild
    · exact absurd hbuild (by simp)
    split at hbuild
    · exact absurd hbuild (by simp)
    split at hbuild
    · exact absurd hbuild (by simp)
    simp only [Except.ok.injEq] at hbuild
    subst hbuild
    refine ⟨by simp [MsgTableParts.valid_mid], ?_, ?_, ?_, ?_, ?_, ?_⟩ <;>
      simp [MsgTableParts.mid_count]

/-- Closed witness for `valid_mid_boundary` at a concretely built table:
`valid_mid` accepts the out-of-range index `mid_count`. -/
theorem valid_mid_boundary_witness :
    ((⟨buildTidMap [⟨1, .tcp, 0, 0⟩, ⟨2, .tcp, 0, 0⟩, ⟨3, .tcp, 0, 0⟩],
        [.tcp, .tcp, .tcp], [0, 0, 0], [0, 0, 0]⟩ : MsgTableParts).valid_mid
      (⟨buildTidMap [⟨1, .tcp, 0, 0⟩, ⟨2, .tcp, 0, 0⟩, ⟨3, .tcp, 0, 0⟩],
        [.tcp, .tcp, .tcp], [0, 0, 0], [0, 0, 0]⟩ : MsgTableParts).mid_count
        = true) ∧
    ((⟨buildTidMap [⟨1, .tcp, 0, 0⟩, ⟨2, .tcp, 0, 0⟩, ⟨3, .tcp, 0, 0⟩],
        [.tcp, .tcp, .tcp], [0, 0, 0], [0, 0, 0]⟩ :
          MsgTableParts).transports[
      (⟨buildTidMap [⟨1, .tcp, 0, 0⟩, ⟨2, .tcp, 0, 0⟩, ⟨3, .tcp, 0, 0⟩],
        [.tcp, .tcp, .tcp], [0, 0, 0], [0, 0, 0]⟩ :
          MsgTableParts).mid_count]? = none) :=
  let p : MsgTableParts :=
    ⟨buildTidMap [⟨1, .tcp, 0, 0⟩, ⟨2, .tcp, 0, 0⟩, ⟨3, .tcp, 0, 0⟩],
      [.tcp, .tcp, .tcp], [0, 0, 0], [0, 0, 0]⟩
  have h := (valid_mid_boundary.2 1 2 3 [] p rfl)
  ⟨h.1, h.2.2.2.2.1⟩

/-! ## `SortedMsgTable` (`src/message_table.rs` lines 201-358) -/

/-- One entry of `SortedMsgTable::table`:
`(String, TypeId, Transport, SerFn, DeserFn)`. -/
structure SortedRegistration where
  name : String
  tid : Nat
  transport : Transport
  ser : Nat
  deser : Nat
  deriving DecidableEq, Repr

/-- `SortedMsgTable::register` from `src/message_table.rs` lines 208-214
(checks in `get_custom_registration`, lines 278-302: first the identifier,
then the `TypeId`). -/
def sortedRegister (t : List SortedRegistration) (r : SortedRegistration) :
    Except MsgRegError (List SortedRegistration) :=
  if t.any (fun e => e.name = r.name) then .error .nonUniqueIdentifier
  else if t.any (fun e => e.tid = r.tid) then .error .typeAlreadyRegistered
  else .ok (t ++ [r])

/-- A whole registration sequence, starting from `SortedMsgTable::new()`. -/
def runSortedRegisters (rs : List SortedRegistration) :
    Except MsgRegError (List SortedRegistration) :=
  rs.foldlM sortedRegister []

/-- The comparison used by `build`'s
`sort_by(|(id0, ...), (id1, ...)| id0.cmp(id1))`. -/
def regLe (a b : SortedRegistration) : Prop := a.name ≤ b.name

instance : DecidableRel regLe := fun a b =>
  inferInstanceAs (Decidable (a.name ≤ b.name))

instance : IsTotal SortedRegistration regLe :=
  ⟨fun a b => le_total a.name b.name⟩

instance : IsTrans SortedRegistration regLe :=
  ⟨fun _ _ _ h1 h2 => le_trans h1 h2⟩

/-- `SortedMsgTable::build::<C, R, D>` from `src/message_table.rs` lines
315-357: the three control types are registered under reserved names
(`get_registration` checks the identifier, then the `TypeId`, against the
user table), the user table is sorted by identifier, the control entries
are prepended and indices are assigned by enumeration. -/
def sortedMsgTableBuild (tidC tidR tidD : Nat)
    (t : List SortedRegistration) : Except MsgRegError MsgTableParts :=
  if t.any (fun e => e.name = "carrier-pigeon::connection") then
    .error .nonUniqueIdentifier
  else if t.any (fun e => e.tid = tidC) then .error .typeAlreadyRegistered
  else if t.any (fun e => e.name = "carrier-pigeon::response") then
    .error .nonUniqueIdentifier
  else if t.any (fun e => e.tid = tidR) then .error .typeAlreadyRegistered
  else if t.any (fun e => e.name = "carrier-pigeon::disconnect") then
    .error .nonUniqueIdentifier
  else if t.any (fun e => e.tid = tidD) then .error .typeAlreadyRegistered
  else
    let sorted := List.insertionSort regLe t
    let all := ⟨"carrier-pigeon::connection", tidC, .tcp, 0, 0⟩ ::
      ⟨"carrier-pigeon::response", tidR, .tcp, 0, 0⟩ ::
      ⟨"carrier-pigeon::disconnect", tidD, .tcp, 0, 0⟩ :: sorted
    .ok { tid_map := all.enum.foldl (fun m iv => hmInsert m iv.2.tid iv.1) []
          transports := all.map (fun e => e.transport)
          ser := all.map (fun e => e.ser)
          deser := all.map (fun e => e.deser) }

/-- A successful registration sequence never produces two entries with the
same identifier. -/
theorem runSortedRegisters_name_nodup (rs : List SortedRegistration)
    (t : List SortedRegistration) (h : runSortedRegisters rs = .ok t) :
    (t.map (fun e => e.name)).Nodup := by
  suffices hgen : ∀ (rs acc t : List SortedRegistration),
      (acc.map (fun e => e.name)).Nodup → rs.foldlM sortedRegister acc = .ok t →
      (t.map (fun e => e.name)).Nodup by
    exact hgen rs [] t (by simp) h
  intro rs
  induction rs with
  | nil =>
    intro acc t hacc hfold
    simp only [List.foldlM_nil, pure, Except.pure, Except.ok.injEq] at hfold
    exact hfold ▸ hacc
  | cons r rest ih =>
    intro acc t hacc hfold
    rw [List.foldlM_cons] at hfold
    unfold sortedRegister at hfold
    split at hfold
    · simp [Bind.bind, Except.bind] at hfold
    split at hfold
    · simp [Bind.bind, Except.bind] at hfold
    rename_i hname htid
    refine ih (acc ++ [r]) t ?_ hfold
    rw [List.map_append, List.nodup_append]
    refine ⟨hacc, by simp, ?_⟩
    intro x hx
    simp only [List.map_cons, List.map_nil, List.mem_singleton]
    intro hxr
    rw [List.mem_map] at hx
    obtain ⟨e, he, hename⟩ := hx
    rw [List.any_eq_true] at hname
    exact hname ⟨e, he, by simp [hename, hxr]⟩

/-- `List.any` only depends on the multiset of elements. -/
theorem perm_any (l₁ l₂ : List SortedRegistration)
    (h : l₁.Perm l₂) (p : SortedRegistration → Bool) :
    l₁.any p = l₂.any p := by
  cases h1 : l₁.any p <;> cases h2 : l₂.any p <;> try rfl
  · obtain ⟨x, hx, hpx⟩ := List.any_eq_true.mp h2
    have hcontr := List.any_eq_true.mpr ⟨x, h.mem_iff.mpr hx, hpx⟩
    rw [h1] at hcontr
    exact hcontr
  · obtain ⟨x, hx, hpx⟩ := List.any_eq_true.mp h1
    have hcontr := List.any_eq_true.mpr ⟨x, h.mem_iff.mp hx, hpx⟩
    rw [h2] at hcontr
    exact hcontr.symm

/-- Sorting by identifier is a function of the multiset of entries when
identifiers are duplicate-free: two permuted tables sort to the same
list. -/
theorem insertionSort_eq_of_perm (t₁ t₂ : List SortedRegistration)
    (hperm : t₁.Perm t₂) (hnd : (t₁.map (fun e => e.name)).Nodup) :
    List.insertionSort regLe t₁ = List.insertionSort regLe t₂ := by
  set r' : SortedRegistration → SortedRegistration → Prop :=
    fun a b => a.name < b.name ∨ a = b with hr'
  have anti : IsAntisymm SortedRegistration r' := by
    constructor
    rintro a b (h1 | rfl) (h2 | h2)
    · exact absurd (lt_trans h1 h2) (lt_irrefl _)
    · exact h2.symm
    · rfl
    · rfl
  have hchain : (List.insertionSort regLe t₁).Perm
      (List.insertionSort regLe t₂) :=
    ((List.perm_insertionSort regLe t₁).trans hperm).trans
      (List.perm_insertionSort regLe t₂).symm
  have hstrict : ∀ t : List SortedRegistration,
      (t.map (fun e => e.name)).Nodup →
      (List.insertionSort regLe t).Sorted r' := by
    intro t hndt
    have hsorted : (List.insertionSort regLe t).Sorted regLe :=
      List.sorted_insertionSort regLe t
    have hnds : ((List.insertionSort regLe t).map
        (fun e => e.name)).Nodup := by
      refine (List.Perm.nodup_iff ?_).mpr hndt
      exact (List.perm_insertionSort regLe t).map _
    have hpne : (List.insertionSort regLe t).Pairwise
        (fun a b => a.name ≠ b.name) := by
      exact List.pairwise_map.mp hnds
    refine (hsorted.and hpne).imp ?_
    rintro a b ⟨hle, hne⟩
    exact Or.inl (lt_of_le_of_ne hle hne)
  have hnd₂ : (t₂.map (fun e => e.name)).Nodup :=
    (List.Perm.nodup_iff (hperm.map _)).mp hnd
  exact @List.eq_of_perm_of_sorted _ r' anti _ _ hchain
    (hstrict t₁ hnd) (hstrict t₂ hnd₂)

/-- C8: two successful registration sequences into a `SortedMsgTable` that
register the same set of entries in different orders (the resulting tables
are permutations of each other) build to identical `MsgTableParts` — in
particular identical `MType` assignments for every registered type. -/
theorem sorted_build_order_independent
    (rs₁ rs₂ t₁ t₂ : List SortedRegistration) (tidC tidR tidD : Nat)
    (h₁ : runSortedRegisters rs₁ = .ok t₁)
    (h₂ : runSortedRegisters rs₂ = .ok t₂)
    (hperm : t₁.Perm t₂) :
    sortedMsgTableBuild tidC tidR tidD t₁
      = sortedMsgTableBuild tidC tidR tidD t₂ := by
  have hnd : (t₁.map (fun e => e.name)).Nodup :=
    runSortedRegisters_name_nodup rs₁ t₁ h₁
  have hsort := insertionSort_eq_of_perm t₁ t₂ hperm hnd
  unfold sortedMsgTableBuild
  rw [perm_any t₁ t₂ hperm (fun e => e.name = "carrier-pigeon::connection"),
    perm_any t₁ t₂ hperm (fun e => e.tid = tidC),
    perm_any t₁ t₂ hperm (fun e => e.name = "carrier-pigeon::response"),
    perm_any t₁ t₂ hperm (fun e => e.tid = tidR),
    perm_any t₁ t₂ hperm (fun e => e.name = "carrier-pigeon::disconnect"),
    perm_any t₁ t₂ hperm (fun e => e.tid = tidD), hsort]

/-- Closed witness for `sorted_build_order_independent`: registering the
same two named types in opposite orders builds identical tables. -/
theorem sorted_build_order_independent_witness :
    runSortedRegisters [⟨"b", 10, .udp, 1, 2⟩, ⟨"a", 11, .tcp, 3, 4⟩]
      = .ok [⟨"b", 10, .udp, 1, 2⟩, ⟨"a", 11, .tcp, 3, 4⟩] ∧
    runSortedRegisters [⟨"a", 11, .tcp, 3, 4⟩, ⟨"b", 10, .udp, 1, 2⟩]
      = .ok [⟨"a", 11, .tcp, 3, 4⟩, ⟨"b", 10, .udp, 1, 2⟩] ∧
    sortedMsgTableBuild 100 101 102
        [⟨"b", 10, .udp, 1, 2⟩, ⟨"a", 11, .tcp, 3, 4⟩]
      = sortedMsgTableBuild 100 101 102
        [⟨"a", 11, .tcp, 3, 4⟩, ⟨"b", 10, .udp, 1, 2⟩] :=
  ⟨rfl, rfl,
    sorted_build_order_independent
      [⟨"b", 10, .udp, 1, 2⟩, ⟨"a", 11, .tcp, 3, 4⟩]
      [⟨"a", 11, .tcp, 3, 4⟩, ⟨"b", 10, .udp, 1, 2⟩]
      [⟨"b", 10, .udp, 1, 2⟩, ⟨"a", 11, .tcp, 3, 4⟩]
      [⟨"a", 11, .tcp, 3, 4⟩, ⟨"b", 10, .udp, 1, 2⟩]
      100 101 102 rfl rfl (List.Perm.swap _ _ _)⟩

/-! ## Client connection status handling
(`src/connection/client_connection.rs`)

`client_connection.rs` uses a generic `Status<A, R, D>` whose declaring
module is not under `src/` (the `Status` in `src/net.rs` is an earlier
revision without the `Disconnecting(AckNum)` payload).  Modelled from the
spec: §3 lists the variants `{NotConnected, Connecting, Accepted(msg),
Rejected(msg), ConnectionFailed(err), Connected, Disconnecting(ack),
Disconnected(msg), Dropped(err)}`, exactly the nine arms matched by
`ClientConnection::handle_status` and `status_err` in the source.
Message payloads are modelled as `Nat` tokens, errors as `IoErr`. -/

/-- An `std::io::Error`, coarsely modelled: the `WouldBlock` kind is the
only kind the connection inspects, so it gets its own constructor. -/
inductive IoErr where
  | wouldBlock
  | other (code : Nat)
  deriving DecidableEq, Repr

/-- Modelled from the spec: the `Status<A, R, D>` enum used by
`client_connection.rs` (see the section comment above). -/
inductive Status where
  | notConnected
  | connecting
  | accepted (a : Nat)
  | rejected (r : Nat)
  | connectionFailed (e : IoErr)
  | connected
  | disconnected (d : Nat)
  | dropped (e : IoErr)
  | disconnecting (ack : Nat)
  deriving DecidableEq, Repr

/-- The connection state that `status_err` touches: the status and the
transport handle (`Option` because `transport: Option<T>`; the handle
itself is a `Nat` token). -/
structure ConnState where
  status : Status
  transport : Option Nat
  deriving DecidableEq, Repr

/-- `ClientConnection::status_err` from
`src/connection/client_connection.rs` lines 145-154: updates the status
according to the current status, then unconditionally drops the
transport. -/
def status_err (s : ConnState) (err : IoErr) : ConnState :=
  let status :=
    match s.status with
    | .connected => .dropped err
    | .connecting => .connectionFailed err
    | .accepted _ => .connectionFailed err
    | .rejected _ => .connectionFailed err
    | .disconnecting _ => .notConnected
    | st => st
  { status := status, transport := none }

/-- `ClientConnection::status_result` from
`src/connection/client_connection.rs` lines 156-161. -/
def status_result (s : ConnState) (r : Except IoErr Unit) : ConnState :=
  match r with
  | .ok _ => s
  | .error e => status_err s e

/-- `ClientConnection::send` from `src/connection/client_connection.rs`
lines 110-143, as a function of the outcomes of its collaborators: the
registry type check, the serializer call and the transport write (the
reliable-system save touches only subsystem state irrelevant to the
status claim).  Returns the new connection state and the `io::Result`
handed to the caller.  When the transport write fails, the error goes to
`status_result` and the function still returns `Ok(sender_ack_num)`. -/
def sendModel (s : ConnState) (typeValid : Bool)
    (serResult : Except IoErr Unit) (transportResult : Except IoErr Unit)
    (ackNum : Nat) : ConnState × Except IoErr Nat :=
  match s.transport with
  | none => (s, .error (.other 0))
  | some _ =>
    if typeValid = false then (s, .error (.other 1))
    else
      match serResult with
      | .error e => (s, .error e)
      | .ok _ => (status_result s transportResult, .ok ackNum)

/-- `ClientConnection::get_msgs` from
`src/connection/client_connection.rs` lines 213-221, as a function of the
result of the inner receive loop: `WouldBlock` is swallowed, any other
error is captured via `status_err`, and nothing is returned to the
caller. -/
def getMsgsModel (s : ConnState) (inner : Except IoErr Unit) : ConnState :=
  match inner with
  | .ok _ => s
  | .error .wouldBlock => s
  | .error e => status_err s e

/-- C5: transport errors during send or receive are captured into the
status — `Connected` becomes `Dropped(err)`; `Connecting`, `Accepted` and
`Rejected` become `ConnectionFailed(err)`; `Disconnecting` becomes
`NotConnected` — and a `send` whose transport write fails still returns
`Ok(sender_ack_num)`; a failed receive only updates the status. -/
theorem transport_error_capture (e : IoErr) (tr a r ackS ack n : Nat) :
    (status_err ⟨.connected, some tr⟩ e).status = .dropped e ∧
    (status_err ⟨.connecting, some tr⟩ e).status = .connectionFailed e ∧
    (status_err ⟨.accepted a, some tr⟩ e).status = .connectionFailed e ∧
    (status_err ⟨.rejected r, some tr⟩ e).status = .connectionFailed e ∧
    (status_err ⟨.disconnecting ackS, some tr⟩ e).status = .notConnected ∧
    sendModel ⟨.connected, some tr⟩ true (.ok ()) (.error e) ack
      = (status_err ⟨.connected, some tr⟩ e, .ok ack) ∧
    getMsgsModel ⟨.connected, some tr⟩ (.error (.other n))
      = status_err ⟨.connected, some tr⟩ (.other n) :=
  ⟨rfl, rfl, rfl, rfl, rfl, rfl, rfl⟩

/-! ## Datagram receive path (`ClientConnection::get_msgs_err`,
`src/connection/client_connection.rs` lines 226-312)

One iteration of the receive loop, from a successfully received buffer to
the point where the decoded message is routed.  The deserializer table
(`msg_table.deser`) is a list of functions from body bytes to either an
error or a decoded message (modelled as the raw body bytes).  The
connection state is an abstract `σ`: the modelled prefix of the loop body
never touches it, which is exactly what claims C6 and C7 are about. -/

/-- Outcome of processing one received datagram. -/
inductive ProcOutcome (σ : Type) where
  | panicked
  | discarded (st : σ)
  | routed (st : σ) (mType : Nat) (body : List Nat)
  deriving DecidableEq, Repr

/-- One iteration of `get_msgs_err` after `transport.recv()` returned
`buf`:

* `buf.len() < HEADER_SIZE` → log and `continue` (discard, state
  untouched);
* decode the header from the first 12 bytes (cannot fail here);
* `!msg_table.valid_m_type(header.m_type)` → the source only logs a
  warning and **falls through** (no `continue`);
* `msg_table.deser[header.m_type]` → out-of-bounds `Vec` index panics
  when `m_type` is not a registered id;
* deserializer error → log and `continue` (discard);
* otherwise the message is routed by `m_type`. -/
def processDatagram {σ : Type}
    (deserTable : List (List Nat → Except IoErr (List Nat)))
    (buf : List Nat) (st : σ) : ProcOutcome σ :=
  if buf.length < HEADER_SIZE then .discarded st
  else
    match MsgHeader.from_be_bytes (buf.take HEADER_SIZE) with
    | none => .panicked
    | some header =>
      match deserTable[header.m_type]? with
      | none => .panicked
      | some deserFn =>
        match deserFn (buf.drop HEADER_SIZE) with
        | .error _ => .discarded st
        | .ok msg => .routed st header.m_type msg

/-- C6 (counterexample): the claim says a buffer shorter than 12 bytes
makes decoding fail with a `ShortPacket` **error value**; in the code no
error value exists — the receive loop discards the datagram silently
(state unchanged), and calling `MsgHeader::from_be_bytes` on the short
buffer directly would panic (an `assert_eq!`), not return an error. -/
theorem short_packet_cex :
    processDatagram [fun b => .ok b] (List.replicate 11 0) (37 : Nat)
      = .discarded 37 ∧
    MsgHeader.from_be_bytes (List.replicate 11 0) = none :=
  ⟨rfl, rfl⟩

/-- C6 (amended): for every input buffer shorter than 12 bytes, the
receive loop discards the datagram before header decoding, without
returning any error value and without touching connection state, and
`from_be_bytes` itself panics (asserts) on such a buffer rather than
returning an error. -/
theorem short_packet_discard {σ : Type}
    (deserTable : List (List Nat → Except IoErr (List Nat)))
    (buf : List Nat) (st : σ) (hshort : buf.length < HEADER_SIZE) :
    processDatagram deserTable buf st = .discarded st ∧
    MsgHeader.from_be_bytes buf = none := by
  constructor
  · unfold processDatagram
    rw [if_pos hshort]
  · unfold MsgHeader.from_be_bytes
    unfold HEADER_SIZE at hshort
    match buf with
    | [] => rfl
    | [_] => rfl
    | [_, _] => rfl
    | [_, _, _] => rfl
    | [_, _, _, _] => rfl
    | [_, _, _, _, _] => rfl
    | [_, _, _, _, _, _] => rfl
    | [_, _, _, _, _, _, _] => rfl
    | [_, _, _, _, _, _, _, _] => rfl
    | [_, _, _, _, _, _, _, _, _] => rfl
    | [_, _, _, _, _, _, _, _, _, _] => rfl
    | [_, _, _, _, _, _, _, _, _, _, _] => rfl
    | _ :: _ :: _ :: _ :: _ :: _ :: _ :: _ :: _ :: _ :: _ :: _ :: _ =>
      exact absurd hshort (by simp)

/-- Closed witness for `short_packet_discard`. -/
theorem short_packet_discard_witness :
    processDatagram [fun b => .ok b] [1, 2, 3] (99 : Nat)
      = .discarded 99 ∧
    MsgHeader.from_be_bytes [1, 2, 3] = none :=
  short_packet_discard [fun b => .ok b] [1, 2, 3] 99 (by decide)

/-- C7 (code_bug): a well-formed 12-byte datagram whose `m_type` (here 5)
is not a registered id (the table has 3 deserializers, ids 0..2) makes the
receive path panic: the source logs the invalid-`MType` warning but does
not skip the datagram, and the following `msg_table.deser[header.m_type]`
indexes the deserializer `Vec` out of bounds.  The claim says the
datagram is dropped and the connection stays usable. -/
theorem unregistered_mtype_panics :
    processDatagram [fun b => .ok b, fun b => .ok b, fun b => .ok b]
      [0, 5, 0, 0, 0, 0, 0, 0, 0, 0, 0, 0] (42 : Nat) = .panicked :=
  rfl

/-! ## Ack system (`src/connection/ack_system.rs`)

`AckNum = u16`.  All `u16` arithmetic in `mark_received` and
`mark_bitfield` is Rust debug-mode checked arithmetic: wrap-around panics,
modelled by `none`.  `VecDeque<AckBitfields>` is a `List` whose head is
the deque front (`push_front` = `cons`, `pop_back` = `dropLast`).
`send_count : u32` increments are modelled on `Nat` (no claim depends on
`u32` wrap of a counter that is bumped once per advertisement).  The
generic send-data parameter `SD` is a `Nat` token. -/

/-- `SEND_ACK_THRESHOLD` from `src/connection/ack_system.rs`. -/
def SEND_ACK_THRESHOLD : Nat := 2

/-- `AckBitfields` from `src/connection/ack_system.rs` (the derived
`Default` is `⟨0, 0⟩`). -/
structure AckBitfields where
  bitfield : Nat
  send_count : Nat
  deriving DecidableEq, Repr

/-- One entry of `saved_msgs` (`HashMap<AckNum, (Instant, MsgHeader, SD)>`
as an association list in insertion order; `Instant` is a `Nat`
timestamp in milliseconds). -/
structure SavedMsg where
  ack : Nat
  sent : Nat
  header : MsgHeader
  sd : Nat
  deriving DecidableEq, Repr

/-- `AckSystem` from `src/connection/ack_system.rs`. -/
structure AckSystem where
  outgoing_counter : Nat
  ack_offset : Nat
  current_idx : Nat
  ack_bitfields : List AckBitfields
  residual : List Nat
  saved_msgs : List SavedMsg
  deriving DecidableEq, Repr

/-- `AckSystem::new` from `src/connection/ack_system.rs` lines 52-63: one
default bitfield in the deque, everything else zero/empty. -/
def AckSystem.new : AckSystem :=
  { outgoing_counter := 0
    ack_offset := 0
    current_idx := 0
    ack_bitfields := [⟨0, 0⟩]
    residual := []
    saved_msgs := [] }

/-- Modelled from the spec: the `Guarantees` enum (declared at the crate
root, which is not under `src/`); §3 lists `Unreliable`,
`UnreliableNewest`, `Reliable`, `ReliableOrdered`, `ReliableNewest`. -/
inductive Guarantees where
  | unreliable
  | unreliableNewest
  | reliable
  | reliableOrdered
  | reliableNewest
  deriving DecidableEq, Repr

/-- Modelled from the spec: `Guarantees::unreliable()` — whether the
guarantee never saves the message (§3: `Unreliable` — never saved;
`UnreliableNewest` — only newest delivered, not saved). -/
def Guarantees.isUnreliable : Guarantees → Bool
  | .unreliable => true
  | .unreliableNewest => true
  | _ => false

/-- The `while num >= self.ack_offset + 32` loop of
`AckSystem::mark_received` (`src/connection/ack_system.rs` lines 70-78).
Evaluating the condition computes `ack_offset + 32` on `u16` first, so it
panics (`none`) as soon as `ack_offset = 65504` is reached; indexing
`ack_bitfields[len - 1]` on an empty deque would also panic.  If the back
bitfield has been advertised at least `SEND_ACK_THRESHOLD` times it is
popped; a fresh bitfield is always pushed at the front and `ack_offset`
grows by 32. -/
def markReceivedLoop (num ackOffset : Nat) (fields : List AckBitfields) :
    Option (Nat × List AckBitfields) :=
  if ackOffset + 32 ≥ 65536 then none
  else if num ≥ ackOffset + 32 then
    match fields.getLast? with
    | none => none
    | some last =>
      let fields' := if last.send_count ≥ SEND_ACK_THRESHOLD
        then fields.dropLast else fields
      markReceivedLoop num (ackOffset + 32) (⟨0, 0⟩ :: fields')
  else some (ackOffset, fields)
termination_by 65536 - ackOffset
decreasing_by omega

/-- `AckSystem::mark_received` from `src/connection/ack_system.rs` lines
68-90.  After the sliding loop:

* `lower_bound = ack_offset - 32 * (len as AckNum - 1)` with checked
  `u16` arithmetic;
* `num < lower_bound` → push `num` onto the residual list;
* otherwise `dif = num - ack_offset` — a checked `u16` subtraction, which
  **underflows (panics) whenever `num < ack_offset`** — and the bit
  `1 << (dif % 32)` is set in `ack_bitfields[dif / 32]` (out-of-bounds
  indexing panics). -/
def AckSystem.mark_received (num : Nat) (s : AckSystem) :
    Option AckSystem :=
  match markReceivedLoop num s.ack_offset s.ack_bitfields with
  | none => none
  | some (off, fields) =>
    let lenU16 := fields.length % 65536
    if lenU16 = 0 then none
    else if 32 * (lenU16 - 1) ≥ 65536 then none
    else if off < 32 * (lenU16 - 1) then none
    else
      let lowerBound := off - 32 * (lenU16 - 1)
      if num < lowerBound then
        some { s with
          ack_offset := off,
          ack_bitfields := fields,
          residual := s.residual ++ [num] }
      else if num < off then none
      else
        let dif := num - off
        let fieldIdx := dif / 32
        match fields[fieldIdx]? with
        | none => none
        | some f =>
          some { s with
            ack_offset := off,
            ack_bitfields := fields.set fieldIdx
              ⟨f.bitfield ||| (2 ^ (dif % 32)), f.send_count⟩ }

/-- `AckSystem::mark_outgoing` from `src/connection/ack_system.rs` lines
97-99: remove the saved message with that `AckNum`, if any. -/
def AckSystem.mark_outgoing (num : Nat) (s : AckSystem) : AckSystem :=
  { s with saved_msgs := s.saved_msgs.filter (fun m => m.ack ≠ num) }

/-- `AckSystem::mark_bitfield` from `src/connection/ack_system.rs` lines
106-112: for each set bit `i`, `mark_outgoing(offset + i)`; the `u16`
addition `offset + i` is checked. -/
def AckSystem.mark_bitfield (offset bitfield : Nat) (s : AckSystem) :
    Option AckSystem :=
  (List.range 32).foldlM
    (fun st i =>
      if bitfield &&& (1 <<< i) ≠ 0 then
        if offset + i ≥ 65536 then none
        else some (AckSystem.mark_outgoing (offset + i) st)
      else some st)
    s

/-- `AckSystem::next_header` from `src/connection/ack_system.rs` lines
115-120: read the bitfield at `current_idx`, bump its `send_count`,
advance `current_idx` cyclically, and return `(ack_offset, bitfield)`
(the bitfield value read before the bump). -/
def AckSystem.next_header (s : AckSystem) :
    Option ((Nat × Nat) × AckSystem) :=
  match s.ack_bitfields[s.current_idx]? with
  | none => none
  | some field =>
    let fields := s.ack_bitfields.set s.current_idx
      ⟨field.bitfield, field.send_count + 1⟩
    some ((s.ack_offset, field.bitfield),
      { s with
        ack_bitfields := fields,
        current_idx := (s.current_idx + 1) % fields.length })

/-- `AckSystem::ack_msg_info` from `src/connection/ack_system.rs` lines
126-131: bump every `send_count`, return the bitfields and the residual
list. -/
def AckSystem.ack_msg_info (s : AckSystem) :
    (List AckBitfields × List Nat) × AckSystem :=
  let fields := s.ack_bitfields.map
    (fun f => ⟨f.bitfield, f.send_count + 1⟩)
  ((fields, s.residual), { s with ack_bitfields := fields })

/-- `AckSystem::outgoing_ack_num` from `src/connection/ack_system.rs`
lines 134-138: return the counter, then `wrapping_add(1)` it. -/
def AckSystem.outgoing_ack_num (s : AckSystem) : Nat × AckSystem :=
  (s.outgoing_counter,
    { s with outgoing_counter := (s.outgoing_counter + 1) % 65536 })

/-- `AckSystem::save_msg` from `src/connection/ack_system.rs` lines
141-163: unreliable guarantees are not saved; `ReliableNewest` first
removes the first saved entry of the same `m_type` (the source iterates a
`HashMap`, whose order is unspecified; insertion order here); then the
message is stored under `header.sender_ack_num` with the current time
`now`. -/
def AckSystem.save_msg (now : Nat) (header : MsgHeader) (g : Guarantees)
    (sd : Nat) (s : AckSystem) : AckSystem :=
  if g.isUnreliable then s
  else
    let s1 :=
      if g = .reliableNewest then
        match s.saved_msgs.find?
            (fun m => m.header.m_type = header.m_type) with
        | some m => AckSystem.mark_outgoing m.ack s
        | none => s
      else s
    { s1 with saved_msgs :=
        s1.saved_msgs.filter (fun m => m.ack ≠ header.sender_ack_num)
          ++ [⟨header.sender_ack_num, now, header, sd⟩] }

/-- `AckSystem::get_resend` from `src/connection/ack_system.rs` lines
166-180: entries older than 1000 ms are returned and their send time is
reset to now. -/
def AckSystem.get_resend (now : Nat) (s : AckSystem) :
    List (MsgHeader × Nat) × AckSystem :=
  let updated := s.saved_msgs.map
    (fun m => if now - m.sent > 1000 then { m with sent := now } else m)
  ((s.saved_msgs.filter (fun m => now - m.sent > 1000)).map
      (fun m => (m.header, m.sd)),
    { s with saved_msgs := updated })

/-- One `AckSystem` operation (the public mutating interface of
`src/connection/ack_system.rs`); `Instant::now()` readings are explicit
`now` arguments. -/
inductive AckOp where
  | markReceived (num : Nat)
  | markOutgoing (num : Nat)
  | markBitfield (offset bitfield : Nat)
  | nextHeader
  | ackMsgInfo
  | outgoingAckNum
  | saveMsg (now : Nat) (header : MsgHeader) (g : Guarantees) (sd : Nat)
  | getResend (now : Nat)
  deriving DecidableEq, Repr

/-- Whether the operation is a `mark_received` call (the only operation
whose code can evict a window bitfield). -/
def AckOp.isMarkReceived : AckOp → Bool
  | .markReceived _ => true
  | _ => false

/-- Run one operation on the state, `none` meaning the call panicked. -/
def stepOp (op : AckOp) (s : AckSystem) : Option AckSystem :=
  match op with
  | .markReceived num => AckSystem.mark_received num s
  | .markOutgoing num => some (AckSystem.mark_outgoing num s)
  | .markBitfield off bits => AckSystem.mark_bitfield off bits s
  | .nextHeader => (AckSystem.next_header s).map (fun r => r.2)
  | .ackMsgInfo => some (AckSystem.ack_msg_info s).2
  | .outgoingAckNum => some (AckSystem.outgoing_ack_num s).2
  | .saveMsg now header g sd => some (AckSystem.save_msg now header g sd s)
  | .getResend now => some (AckSystem.get_resend now s).2

/-- Run a sequence of operations on a fresh `AckSystem`. -/
def runOps (ops : List AckOp) : Option AckSystem :=
  ops.foldlM (fun s op => stepOp op s) AckSystem.new

/-- One-step unfolding equation for the `mark_received` sliding loop. -/
theorem markReceivedLoop_unfold (num ackOffset : Nat)
    (fields : List AckBitfields) :
    markReceivedLoop num ackOffset fields =
      if ackOffset + 32 ≥ 65536 then none
      else if num ≥ ackOffset + 32 then
        match fields.getLast? with
        | none => none
        | some last =>
          let fields' := if last.send_count ≥ SEND_ACK_THRESHOLD
            then fields.dropLast else fields
          markReceivedLoop num (ackOffset + 32) (⟨0, 0⟩ :: fields')
      else some (ackOffset, fields) := by
  rw [markReceivedLoop]

/-- C1 (code bug): the claim follows spec §8 property 2 — after any
`mark_received` sequence every marked number is either covered by a
retained bitfield or in the residual set.  The code violates it: on a
fresh system, `mark_received(38)` slides the window (`ack_offset = 32`,
two bitfields covering 0..63), and then `mark_received(0)` — a number
still inside the window (`lower_bound = 0`) — evaluates
`num - self.ack_offset` = `0 - 32` on `u16`, which panics in debug mode
(and in release mode wraps to 65504, indexing `ack_bitfields[2047]` out
of bounds, which also panics).  The run aborts (`none`): the bit is set
nowhere and 0 never reaches the residual set. -/
theorem mark_received_old_in_window_panics :
    runOps [AckOp.markReceived 38, AckOp.markReceived 0] = none := by
  have h1 : markReceivedLoop 38 0 [⟨0, 0⟩] = some (32, [⟨0, 0⟩, ⟨0, 0⟩]) := by
    rw [markReceivedLoop_unfold]
    norm_num [SEND_ACK_THRESHOLD]
    rw [markReceivedLoop_unfold]
    norm_num
  have h2 : markReceivedLoop 0 32 [⟨64, 0⟩, ⟨0, 0⟩]
      = some (32, [⟨64, 0⟩, ⟨0, 0⟩]) := by
    rw [markReceivedLoop_unfold]
    norm_num
  have hm1 : AckSystem.mark_received 38 AckSystem.new
      = some ⟨0, 32, 0, [⟨64, 0⟩, ⟨0, 0⟩], [], []⟩ := by
    rw [AckSystem.mark_received]
    rw [show AckSystem.new.ack_offset = 0 from rfl,
      show AckSystem.new.ack_bitfields = [⟨0, 0⟩] from rfl, h1]
    rfl
  have hm2 : AckSystem.mark_received 0
      (⟨0, 32, 0, [⟨64, 0⟩, ⟨0, 0⟩], [], []⟩ : AckSystem) = none := by
    rw [AckSystem.mark_received]
    rw [show (⟨0, 32, 0, [⟨64, 0⟩, ⟨0, 0⟩], [], []⟩ : AckSystem).ack_offset
        = 32 from rfl,
      show (⟨0, 32, 0, [⟨64, 0⟩, ⟨0, 0⟩], [], []⟩ :
        AckSystem).ack_bitfields = [⟨64, 0⟩, ⟨0, 0⟩] from rfl, h2]
    rfl
  simp only [runOps, List.foldlM_cons, List.foldlM_nil, stepOp, hm1,
    Option.pure_def, Option.bind_eq_bind, Option.some_bind, hm2,
    Option.none_bind]

/-- `replicate p a ++ a :: rest` absorbs the head into the replicate. -/
theorem replicate_append_cons (p : Nat) (a : AckBitfields)
    (rest : List AckBitfields) :
    List.replicate p a ++ a :: rest = List.replicate (p + 1) a ++ rest := by
  rw [List.replicate_succ', List.append_assoc, List.singleton_append]

theorem markReceivedLoop_spec (num : Nat) :
    ∀ (off : Nat) (fields : List AckBitfields)
      (off' : Nat) (fields' : List AckBitfields),
    markReceivedLoop num off fields = some (off', fields') →
    (fields ≠ [] → fields' ≠ []) ∧
    ∃ p k, k ≤ fields.length ∧
      fields' = List.replicate p ⟨0, 0⟩
        ++ fields.take (fields.length - k) ∧
      ∀ f ∈ fields.drop (fields.length - k),
        SEND_ACK_THRESHOLD ≤ f.send_count := by
  intro off fields
  induction off, fields using markReceivedLoop.induct num with
  | case1 off fields hover =>
    intro off' fd' hrun
    rw [markReceivedLoop_unfold, if_pos hover] at hrun
    exact absurd hrun (by simp)
  | case2 off fields hover hge hlast =>
    intro off' fd' hrun
    rw [markReceivedLoop_unfold, if_neg hover, if_pos hge, hlast] at hrun
    exact absurd hrun (by simp)
  | case3 off fields hover hge last hlast fieldsRec ih =>
    intro off' fd' hrun
    rw [markReceivedLoop_unfold, if_neg hover, if_pos hge, hlast] at hrun
    simp only at hrun
    obtain ⟨hne, p, k, hk, heq, hdrop⟩ := ih off' fd' hrun
    have hfne : fields ≠ [] := by
      intro hnil
      rw [hnil] at hlast
      exact absurd hlast (by simp)
    have hn1 : 1 ≤ fields.length := List.length_pos.mpr hfne
    refine ⟨fun _ => hne (List.cons_ne_nil _ _), ?_⟩
    have hgl := List.getLast?_eq_getLast fields hfne
    rw [hlast] at hgl
    have hlasteq : last = fields.getLast hfne :=
      Option.some.injEq _ _ ▸ hgl
    have hdecomp : fields.dropLast ++ [last] = fields := by
      rw [hlasteq]
      exact List.dropLast_append_getLast hfne
    have hfr : fieldsRec = if last.send_count ≥ SEND_ACK_THRESHOLD
        then fields.dropLast else fields := rfl
    have hlen : fields.dropLast.length = fields.length - 1 :=
      List.length_dropLast fields
    by_cases hsc : last.send_count ≥ SEND_ACK_THRESHOLD
    · -- the back bitfield was popped: it had send_count ≥ 2
      rw [if_pos hsc] at hfr
      rw [hfr] at hk heq hdrop
      rw [List.length_cons, hlen] at hk heq hdrop
      have hkn : k < fields.length := by
        rcases Nat.lt_or_ge k fields.length with h | h
        · exact h
        · exfalso
          have hkeq : fields.length - 1 + 1 - k = 0 := by omega
          rw [hkeq, List.drop_zero] at hdrop
          have := hdrop ⟨0, 0⟩ (by simp)
          simp [SEND_ACK_THRESHOLD] at this
      refine ⟨p + 1, k + 1, by omega, ?_, ?_⟩
      · rw [heq]
        have hsucc : fields.length - 1 + 1 - k = (fields.length - (k + 1)) + 1 := by
          omega
        rw [hsucc, List.take_succ_cons, replicate_append_cons]
        have htk : fields.dropLast.take (fields.length - (k + 1))
            = fields.take (fields.length - (k + 1)) := by
          rw [List.dropLast_eq_take, List.take_take,
            Nat.min_eq_left (by omega)]
        rw [htk]
      · obtain ⟨m, hm⟩ : ∃ m, fields.length - (k + 1) = m := ⟨_, rfl⟩
        rw [hm]
        have hkey : fields.drop m = fields.dropLast.drop m ++ [last] := by
          conv_lhs => rw [← hdecomp]
          exact List.drop_append_of_le_length (by omega)
        have hsucc : fields.length - 1 + 1 - k = m + 1 := by omega
        rw [hsucc, List.drop_succ_cons] at hdrop
        intro f hf
        rw [hkey, List.mem_append] at hf
        rcases hf with hf | hf
        · exact hdrop f hf
        · rw [List.mem_singleton] at hf
          rw [hf]
          exact hsc
    · -- the back bitfield stayed: nothing was evicted
      rw [if_neg hsc] at hfr
      rw [hfr] at hk heq hdrop
      rw [List.length_cons] at hk heq hdrop
      have hkn : k ≤ fields.length := by
        rcases Nat.lt_or_ge fields.length k with h | h
        · exfalso
          have hkeq : fields.length + 1 - k = 0 := by omega
          rw [hkeq, List.drop_zero] at hdrop
          have := hdrop ⟨0, 0⟩ (by simp)
          simp [SEND_ACK_THRESHOLD] at this
        · exact h
      refine ⟨p + 1, k, hkn, ?_, ?_⟩
      · rw [heq]
        have hsucc : fields.length + 1 - k = (fields.length - k) + 1 := by
          omega
        rw [hsucc, List.take_succ_cons, replicate_append_cons]
      · intro f hf
        apply hdrop
        have hsucc : fields.length + 1 - k = (fields.length - k) + 1 := by
          omega
        rw [hsucc, List.drop_succ_cons]
        exact hf
  | case4 off fields hover hlt =>
    intro off' fd' hrun
    rw [markReceivedLoop_unfold, if_neg hover, if_neg hlt] at hrun
    simp only [Option.some.injEq, Prod.mk.injEq] at hrun
    obtain ⟨rfl, rfl⟩ := hrun
    refine ⟨fun h => h, 0, 0, Nat.zero_le _, ?_, ?_⟩
    · simp
    · simp

theorem set_getElem?_self {α : Type} : ∀ (l : List α) (i : Nat) (v : α),
    l[i]? = some v → l.set i v = l := by
  intro l
  induction l with
  | nil => intro i v h; simp at h
  | cons a t ih =>
    intro i v h
    cases i with
    | zero =>
      simp only [List.getElem?_cons_zero, Option.some.injEq] at h
      rw [← h]
      rfl
    | succ i =>
      simp only [List.getElem?_cons_succ] at h
      rw [List.set_cons_succ, ih i v h]

theorem mark_received_window (num : Nat) (s s' : AckSystem)
    (h : AckSystem.mark_received num s = some s') :
    ∃ off' fields',
      markReceivedLoop num s.ack_offset s.ack_bitfields
        = some (off', fields') ∧
      (s'.ack_bitfields = fields' ∨
        ∃ i f, fields'[i]? = some f ∧
          s'.ack_bitfields = fields'.set i
            ⟨f.bitfield ||| 2 ^ ((num - off') % 32), f.send_count⟩) := by
  rw [AckSystem.mark_received] at h
  cases hloop : markReceivedLoop num s.ack_offset s.ack_bitfields with
  | none => rw [hloop] at h; exact absurd h (by simp)
  | some r =>
    obtain ⟨off, fields⟩ := r
    rw [hloop] at h
    simp only at h
    refine ⟨off, fields, rfl, ?_⟩
    split at h
    · exact absurd h (by simp)
    split at h
    · exact absurd h (by simp)
    split at h
    · exact absurd h (by simp)
    split at h
    · simp only [Option.some.injEq] at h
      left
      rw [← h]
    · split at h
      · exact absurd h (by simp)
      · cases hget : fields[(num - off) / 32]? with
        | none => rw [hget] at h; exact absurd h (by simp)
        | some f =>
          rw [hget] at h
          simp only [Option.some.injEq] at h
          right
          exact ⟨(num - off) / 32, f, hget, by rw [← h]⟩

theorem mark_bitfield_fold_fields (off bits : Nat) :
    ∀ (l : List Nat) (s s' : AckSystem),
    l.foldlM (fun st i =>
        if bits &&& (1 <<< i) ≠ 0 then
          if off + i ≥ 65536 then none
          else some (AckSystem.mark_outgoing (off + i) st)
        else some st) s = some s' →
    s'.ack_bitfields = s.ack_bitfields := by
  intro l
  induction l with
  | nil =>
    intro s s' h
    simp only [List.foldlM_nil, pure, Except.pure, Option.some.injEq] at h
    rw [← h]
  | cons i rest ih =>
    intro s s' h
    rw [List.foldlM_cons] at h
    split at h
    · split at h
      · exact absurd h (by simp [Bind.bind])
      · have := ih (AckSystem.mark_outgoing (off + i) s) s' h
        rw [this]
        rfl
    · exact ih s s' h

theorem stepOp_preserves_ne_nil (op : AckOp) (s s' : AckSystem)
    (h : stepOp op s = some s') (hne : s.ack_bitfields ≠ []) :
    s'.ack_bitfields ≠ [] := by
  cases op with
  | markReceived num =>
    obtain ⟨off', fields', hloop, hcase⟩ :=
      mark_received_window num s s' h
    have hfne : fields' ≠ [] :=
      (markReceivedLoop_spec num s.ack_offset s.ack_bitfields off' fields'
        hloop).1 hne
    rcases hcase with hcase | ⟨i, f, hget, hcase⟩
    · rw [hcase]; exact hfne
    · rw [hcase]
      intro hnil
      exact hfne (by simpa using congrArg List.length hnil)
  | markOutgoing num =>
    simp only [stepOp, Option.some.injEq] at h
    rw [← h]
    exact hne
  | markBitfield off bits =>
    have := mark_bitfield_fold_fields off bits (List.range 32) s s' h
    rw [this]
    exact hne
  | nextHeader =>
    simp only [stepOp, AckSystem.next_header] at h
    cases hget : s.ack_bitfields[s.current_idx]? with
    | none => rw [hget] at h; exact absurd h (by simp)
    | some f =>
      rw [hget] at h
      simp only [Option.map_some', Option.some.injEq] at h
      rw [← h]
      intro hnil
      exact hne (by simpa using congrArg List.length hnil)
  | ackMsgInfo =>
    simp only [stepOp, AckSystem.ack_msg_info, Option.some.injEq] at h
    rw [← h]
    intro hnil
    exact hne (by simpa using congrArg List.length hnil)
  | outgoingAckNum =>
    simp only [stepOp, AckSystem.outgoing_ack_num, Option.some.injEq] at h
    rw [← h]
    exact hne
  | saveMsg now header g sd =>
    simp only [stepOp, AckSystem.save_msg, AckSystem.mark_outgoing] at h
    split at h <;> try split at h <;> try split at h
    all_goals
      simp only [Option.some.injEq] at h
      rw [← h]
      try exact hne
  | getResend now =>
    simp only [stepOp, AckSystem.get_resend, Option.some.injEq] at h
    rw [← h]
    exact hne

theorem runOps_window_ne_nil (ops : List AckOp) (s : AckSystem)
    (h : runOps ops = some s) : s.ack_bitfields ≠ [] := by
  suffices hgen : ∀ (ops : List AckOp) (s0 s : AckSystem),
      s0.ack_bitfields ≠ [] →
      ops.foldlM (fun s op => stepOp op s) s0 = some s →
      s.ack_bitfields ≠ [] by
    exact hgen ops AckSystem.new s (by simp [AckSystem.new]) h
  intro ops
  induction ops with
  | nil =>
    intro s0 s hne hfold
    simp only [List.foldlM_nil, pure, Option.some.injEq] at hfold
    rw [← hfold]
    exact hne
  | cons op rest ih =>
    intro s0 s hne hfold
    rw [List.foldlM_cons] at hfold
    cases hstep : stepOp op s0 with
    | none => rw [hstep] at hfold; exact absurd hfold (by simp [Bind.bind])
    | some s1 =>
      rw [hstep] at hfold
      exact ih s1 s (stepOp_preserves_ne_nil op s0 s1 hstep hne) hfold

theorem stepOp_bitfields_const (op : AckOp) (s s' : AckSystem)
    (hop : op.isMarkReceived = false) (h : stepOp op s = some s') :
    s'.ack_bitfields.map (fun f => f.bitfield)
      = s.ack_bitfields.map (fun f => f.bitfield) := by
  cases op with
  | markReceived num => simp [AckOp.isMarkReceived] at hop
  | markOutgoing num =>
    simp only [stepOp, Option.some.injEq] at h
    rw [← h]
    rfl
  | markBitfield off bits =>
    rw [mark_bitfield_fold_fields off bits (List.range 32) s s' h]
  | nextHeader =>
    simp only [stepOp, AckSystem.next_header] at h
    cases hget : s.ack_bitfields[s.current_idx]? with
    | none => rw [hget] at h; exact absurd h (by simp)
    | some f =>
      rw [hget] at h
      simp only [Option.map_some', Option.some.injEq] at h
      rw [← h]
      simp only [List.map_set]
      apply set_getElem?_self
      rw [List.getElem?_map, hget]
      rfl
  | ackMsgInfo =>
    simp only [stepOp, AckSystem.ack_msg_info, Option.some.injEq] at h
    rw [← h]
    simp only [List.map_map]
    rfl
  | outgoingAckNum =>
    simp only [stepOp, AckSystem.outgoing_ack_num, Option.some.injEq] at h
    rw [← h]
  | saveMsg now header g sd =>
    simp only [stepOp, AckSystem.save_msg, AckSystem.mark_outgoing] at h
    split at h <;> try split at h <;> try split at h
    all_goals
      simp only [Option.some.injEq] at h
      rw [← h]
  | getResend now =>
    simp only [stepOp, AckSystem.get_resend, Option.some.injEq] at h
    rw [← h]

/-- C4: window invariants of the `AckSystem`.  (a) Starting from
`AckSystem::new()`, every successful sequence of `AckSystem` operations
leaves the bitfield window non-empty.  (b) A bitfield is removed from the
window only by the sliding loop of `mark_received`, and only when its
`send_count` has reached `SEND_ACK_THRESHOLD = 2`: the loop turns the
window into fresh bitfields prepended to a prefix of the old window, and
every dropped suffix entry had `send_count ≥ 2`; the rest of
`mark_received` only ORs a bit into one retained bitfield; and no other
operation removes or replaces a bitfield (they preserve the window's
bitfield values pointwise). -/
theorem ack_window_invariants :
    (∀ (ops : List AckOp) (s : AckSystem), runOps ops = some s →
      s.ack_bitfields ≠ []) ∧
    (∀ (num off : Nat) (fields : List AckBitfields) (off' : Nat)
        (fields' : List AckBitfields),
      markReceivedLoop num off fields = some (off', fields') →
      ∃ p k, k ≤ fields.length ∧
        fields' = List.replicate p ⟨0, 0⟩
          ++ fields.take (fields.length - k) ∧
        ∀ f ∈ fields.drop (fields.length - k),
          SEND_ACK_THRESHOLD ≤ f.send_count) ∧
    (∀ (num : Nat) (s s' : AckSystem),
      AckSystem.mark_received num s = some s' →
      ∃ off' fields',
        markReceivedLoop num s.ack_offset s.ack_bitfields
          = some (off', fields') ∧
        (s'.ack_bitfields = fields' ∨
          ∃ i f, fields'[i]? = some f ∧
            s'.ack_bitfields = fields'.set i
              ⟨f.bitfield ||| 2 ^ ((num - off') % 32), f.send_count⟩)) ∧
    (∀ (op : AckOp) (s s' : AckSystem), op.isMarkReceived = false →
      stepOp op s = some s' →
      s'.ack_bitfields.map (fun f => f.bitfield)
        = s.ack_bitfields.map (fun f => f.bitfield)) :=
  ⟨runOps_window_ne_nil,
    fun num off fields off' fields' h =>
      (markReceivedLoop_spec num off fields off' fields' h).2,
    mark_received_window,
    stepOp_bitfields_const⟩

/-- Closed witness for `ack_window_invariants` at concrete inputs. -/
theorem ack_window_invariants_witness :
    runOps [AckOp.markReceived 3] = some ⟨0, 0, 0, [⟨8, 0⟩], [], []⟩ ∧
    (⟨0, 0, 0, [⟨8, 0⟩], [], []⟩ : AckSystem).ack_bitfields ≠ [] ∧
    AckOp.nextHeader.isMarkReceived = false ∧
    stepOp AckOp.nextHeader AckSystem.new
      = some ⟨0, 0, 1 % 1, [⟨0, 1⟩], [], []⟩ ∧
    (⟨0, 0, 1 % 1, [⟨0, 1⟩], [], []⟩ : AckSystem).ack_bitfields.map
        (fun f => f.bitfield)
      = AckSystem.new.ack_bitfields.map (fun f => f.bitfield) := by
  have hloop : markReceivedLoop 3 0 [⟨0, 0⟩] = some (0, [⟨0, 0⟩]) := by
    rw [markReceivedLoop_unfold]
    norm_num
  have hm : AckSystem.mark_received 3 AckSystem.new
      = some ⟨0, 0, 0, [⟨8, 0⟩], [], []⟩ := by
    rw [AckSystem.mark_received]
    rw [show AckSystem.new.ack_offset = 0 from rfl,
      show AckSystem.new.ack_bitfields = [⟨0, 0⟩] from rfl, hloop]
    rfl
  have hrun : runOps [AckOp.markReceived 3]
      = some ⟨0, 0, 0, [⟨8, 0⟩], [], []⟩ := by
    simp only [runOps, List.foldlM_cons, List.foldlM_nil, stepOp, hm,
      Option.pure_def, Option.bind_eq_bind, Option.some_bind]
  have hstep : stepOp AckOp.nextHeader AckSystem.new
      = some ⟨0, 0, 1 % 1, [⟨0, 1⟩], [], []⟩ := rfl
  exact ⟨hrun, ack_window_invariants.1 [AckOp.markReceived 3] _ hrun,
    rfl, hstep,
    ack_window_invariants.2.2.2 AckOp.nextHeader AckSystem.new _ rfl hstep⟩
